import Mathlib

/-!
Verification development for the Wavenet analysis tool (`examples/Analyse.cxx`
and `Wavenet/Utilities.h`).

The C++ source is shallowly embedded: strings are `List Char`, `double` cost
values are `ℚ`, `std::vector` is `List`, checked `.at` accesses are modelled
with explicit bound checks, and unsigned machine arithmetic is `Nat` with an
explicit modulus where wrap-around matters.
-/

set_option maxHeartbeats 1000000

/-! ## Utilities.h: string functions -/

/-- `Utilities.h`, `split`: repeated `std::getline(ss, item, delim)`.
`getline` reads up to (and consumes) the next delimiter, or up to end-of-input;
it fails (producing no element) exactly when the stream is already exhausted. -/
def split (d : Char) : List Char → List (List Char)
  | [] => []
  | c :: cs =>
    if c = d then [] :: split d cs
    else
      match split d cs with
      | [] => [[c]]
      | e :: es => (c :: e) :: es

/-- `Utilities.h`, `isNumber`: character class accepted by the lambda
(digits, the dot, and the space). -/
def isNumberChar (c : Char) : Bool := c.isDigit || c = '.' || c = ' '

/-- `Utilities.h`, `isNumber`: `!s.empty() && std::find_if(...) == s.end()`. -/
def isNumber (s : List Char) : Bool := !s.isEmpty && s.all isNumberChar

/-- `Utilities.h`, `isEmpty`: `!s.empty() && std::find_if(...) == s.end()`,
with the lambda accepting only the space character. -/
def isEmpty (s : List Char) : Bool := !s.isEmpty && s.all (fun c => c = ' ')

/-! ### Helper lemmas about `split` -/

theorem split_cons (d c : Char) (cs : List Char) :
    split d (c :: cs) =
      if c = d then [] :: split d cs
      else
        match split d cs with
        | [] => [[c]]
        | e :: es => (c :: e) :: es := rfl

theorem split_ne_nil (d : Char) (s : List Char) (h : s ≠ []) : split d s ≠ [] := by
  match s with
  | [] => exact absurd rfl h
  | c :: cs =>
    by_cases hc : c = d
    · simp [split, hc]
    · simp only [split, hc, if_false]
      match split d cs with
      | [] => simp
      | e :: es => simp

theorem intercalate_two (sep : List Char) (x y : List Char) (l : List (List Char)) :
    List.intercalate sep (x :: y :: l) = x ++ sep ++ List.intercalate sep (y :: l) := by
  simp [List.intercalate, List.intersperse]

theorem intercalate_cons_head (sep : List Char) (c : Char) (e : List Char)
    (es : List (List Char)) :
    List.intercalate sep ((c :: e) :: es) = c :: List.intercalate sep (e :: es) := by
  match es with
  | [] => simp [List.intercalate]
  | f :: fs => rw [intercalate_two, intercalate_two]; simp

theorem roundtrip_aux (d : Char) :
    ∀ s : List Char, s.getLast? ≠ some d →
      List.intercalate [d] (split d s) = s := by
  intro s
  induction s with
  | nil => intro _; simp [split, List.intercalate]
  | cons c cs ih =>
    intro h
    match cs with
    | [] =>
      have hc : c ≠ d := by simpa using h
      simp [split, hc, List.intercalate]
    | c2 :: cs2 =>
      have hlast : (c2 :: cs2).getLast? ≠ some d := by
        rwa [List.getLast?_cons_cons] at h
      have ih2 := ih hlast
      have hnn : split d (c2 :: cs2) ≠ [] := split_ne_nil d _ (by simp)
      by_cases hc : c = d
      · subst hc
        rw [split_cons, if_pos rfl]
        match hsp : split c (c2 :: cs2) with
        | [] => exact absurd hsp hnn
        | e :: es =>
          rw [intercalate_two]
          rw [hsp] at ih2
          simp [ih2]
      · rw [split_cons, if_neg hc]
        match hsp : split d (c2 :: cs2) with
        | [] => exact absurd hsp hnn
        | e :: es =>
          show List.intercalate [d] ((c :: e) :: es) = c :: c2 :: cs2
          rw [intercalate_cons_head]
          rw [hsp] at ih2
          rw [ih2]

theorem trailing_aux (d : Char) :
    ∀ s : List Char, s ≠ [] → s.getLast? ≠ some d →
      split d (s ++ [d]) = split d s := by
  intro s
  induction s with
  | nil => intro h _; exact absurd rfl h
  | cons c cs ih =>
    intro _ h
    match cs with
    | [] =>
      have hc : c ≠ d := by simpa using h
      simp [split, hc]
    | c2 :: cs2 =>
      have hlast : (c2 :: cs2).getLast? ≠ some d := by
        rwa [List.getLast?_cons_cons] at h
      have ih2 := ih (by simp) hlast
      by_cases hc : c = d
      · subst hc
        rw [List.cons_append, split_cons c c ((c2 :: cs2) ++ [c]),
          split_cons c c (c2 :: cs2), if_pos rfl, if_pos rfl, ih2]
      · rw [List.cons_append, split_cons d c ((c2 :: cs2) ++ [d]),
          split_cons d c (c2 :: cs2), if_neg hc, if_neg hc, ih2]

/-- C9: for every delimiter `d` and every string `s` that is empty or does not
end with `d`, joining `split s d` with `d` yields `s` back (so interior empty
segments are preserved); moreover, appending a trailing delimiter to a
non-empty such `s` produces no extra element. -/
theorem split_intercalate_roundtrip (d : Char) (s : List Char)
    (h : s = [] ∨ s.getLast? ≠ some d) :
    List.intercalate [d] (split d s) = s ∧
      (s ≠ [] → split d (s ++ [d]) = split d s) := by
  rcases h with h | h
  · subst h
    refine ⟨by simp [split, List.intercalate], fun hne => absurd rfl hne⟩
  · exact ⟨roundtrip_aux d s h, fun hne => trailing_aux d s hne h⟩

/-- C9 witness: concrete instance with an interior empty segment. -/
theorem split_intercalate_roundtrip_witness :
    ((['a', ',', ',', 'b'] : List Char) = [] ∨
        (['a', ',', ',', 'b'] : List Char).getLast? ≠ some ',') ∧
      (List.intercalate [','] (split ',' ['a', ',', ',', 'b']) = ['a', ',', ',', 'b'] ∧
        ((['a', ',', ',', 'b'] : List Char) ≠ [] →
          split ',' (['a', ',', ',', 'b'] ++ [',']) = split ',' ['a', ',', ',', 'b'])) :=
  ⟨Or.inr (by decide), split_intercalate_roundtrip ',' ['a', ',', ',', 'b'] (Or.inr (by decide))⟩

/-- C10: both string predicates reject the empty string, and each holds exactly
for non-empty strings all of whose characters satisfy the respective class. -/
theorem isNumber_isEmpty_reject_empty (s : List Char) :
    isNumber [] = false ∧ isEmpty [] = false ∧
      (isNumber s = true ↔ s ≠ [] ∧ ∀ c ∈ s, isNumberChar c = true) ∧
      (isEmpty s = true ↔ s ≠ [] ∧ ∀ c ∈ s, c = ' ') := by
  refine ⟨rfl, rfl, ?_, ?_⟩
  · simp [isNumber, List.isEmpty_iff]
  · simp [isEmpty, List.isEmpty_iff]

/-- C10 witness: concrete strings on both sides of each predicate. -/
theorem isNumber_isEmpty_reject_empty_witness :
    isNumber ['1', '.', '2'] = true ∧ isEmpty [' ', ' '] = true :=
  ⟨((isNumber_isEmpty_reject_empty ['1', '.', '2']).2.2.1).mpr (by decide),
   ((isNumber_isEmpty_reject_empty [' ', ' ']).2.2.2).mpr (by decide)⟩

/-! ## Analyse.cxx: project identity and cost-map cache file names -/

/-- `Analyse.cxx` lines 30-34: generator modes. -/
inductive GeneratorMode
  | File
  | Uniform
  | Needle
  | Gaussian
deriving DecidableEq

/-- `Analyse.cxx` lines 43-67: `project = "Run." + <mode> + ".N" + to_string(Nfilter)`. -/
def projectName (mode : GeneratorMode) (nfilter : Nat) : List Char :=
  ("Run." ++
    (match mode with
     | GeneratorMode.File => "File"
     | GeneratorMode.Uniform => "Uniform"
     | GeneratorMode.Needle => "Needle"
     | GeneratorMode.Gaussian => "Gaussian") ++
    ".N" ++ toString nfilter).data

/-- `Analyse.cxx` lines 207-210: `std::regex_replace(project, std::regex(".N(\\d+)"), "")`.
The pattern is one arbitrary character, a literal `N`, then one or more digits
(greedy); every non-overlapping leftmost match is deleted. The fuel argument is
an upper bound on the scan length (each step consumes at least one character),
so `fuel = s.length` makes the exhaustion branch unreachable. -/
def regexReplaceDotNAux : Nat → List Char → List Char
  | 0, s => s
  | _ + 1, [] => []
  | fuel + 1, c :: rest =>
    match rest with
    | 'N' :: r2 =>
      if (r2.takeWhile Char.isDigit).isEmpty then c :: regexReplaceDotNAux fuel rest
      else regexReplaceDotNAux fuel (r2.dropWhile Char.isDigit)
    | _ => c :: regexReplaceDotNAux fuel rest

/-- `Analyse.cxx` lines 207-210: the regex substitution on the project name. -/
def regexReplaceDotN (s : List Char) : List Char := regexReplaceDotNAux s.length s

/-- `Analyse.cxx` line 208. -/
def costMapName (project : List Char) : List Char :=
  "output/costMap.".data ++ regexReplaceDotN project ++ ".mat".data

/-- `Analyse.cxx` line 209. -/
def costMapRegName (project : List Char) : List Char :=
  "output/costMapReg.".data ++ regexReplaceDotN project ++ ".mat".data

/-- `Analyse.cxx` line 210. -/
def costMapSparseName (project : List Char) : List Char :=
  "output/costMapSparse.".data ++ regexReplaceDotN project ++ ".mat".data

/-- C6: the three cache paths are derived from the project identity with the
numeric filter-count suffix stripped; for the run's actual project
`"Run.File.N4"` this yields `"output/costMap.Run.File.mat"` and its
`Sparse`/`Reg` variants, and the same holds for the other generator modes. -/
theorem costMap_cache_names :
    projectName GeneratorMode.File 4 = "Run.File.N4".data ∧
    regexReplaceDotN (projectName GeneratorMode.File 4) = "Run.File".data ∧
    costMapName (projectName GeneratorMode.File 4) = "output/costMap.Run.File.mat".data ∧
    costMapSparseName (projectName GeneratorMode.File 4) =
      "output/costMapSparse.Run.File.mat".data ∧
    costMapRegName (projectName GeneratorMode.File 4) =
      "output/costMapReg.Run.File.mat".data ∧
    costMapName (projectName GeneratorMode.Uniform 4) = "output/costMap.Run.Uniform.mat".data ∧
    costMapName (projectName GeneratorMode.Needle 4) = "output/costMap.Run.Needle.mat".data ∧
    costMapName (projectName GeneratorMode.Gaussian 4) =
      "output/costMap.Run.Gaussian.mat".data := by
  refine ⟨?_, ?_, ?_, ?_, ?_, ?_, ?_, ?_⟩ <;> decide

/-! ## Analyse.cxx lines 206-234: cost-map memoization -/

/-- The on-disk state of the three cost-map cache artifacts. `none` means the
file at the corresponding path does not exist; `some g` holds the stored grid. -/
structure CacheFS (G : Type) where
  raw : Option G
  sparse : Option G
  reg : Option G
deriving DecidableEq

/-- Result of the memoization step: the filesystem afterwards, the three
in-memory grids (`none` when an `arma` load of a missing file fails and leaves
the matrix unset), and whether the O(resolution^2) sweep ran. -/
structure CostMapResult (G : Type) where
  after : CacheFS G
  loadedRaw : Option G
  loadedSparse : Option G
  loadedReg : Option G
  recomputed : Bool
deriving DecidableEq

/-- `Analyse.cxx` lines 214-234: `if (!fileExists(costMapName)) { costs =
wavenet.costMap(...); save all three } else { load all three }`. Only the raw
artifact's existence is tested; `computed` stands for the triple
`wavenet.costMap(examples, 1.2, 300)` would produce. -/
def costMapStep {G : Type} (fs : CacheFS G) (computed : G × G × G) : CostMapResult G :=
  if fs.raw.isNone then
    { after := ⟨some computed.1, some computed.2.1, some computed.2.2⟩,
      loadedRaw := some computed.1,
      loadedSparse := some computed.2.1,
      loadedReg := some computed.2.2,
      recomputed := true }
  else
    { after := fs,
      loadedRaw := fs.raw,
      loadedSparse := fs.sparse,
      loadedReg := fs.reg,
      recomputed := false }

/-- `Analyse.cxx` line 214 context: at least one of the three artifacts is absent. -/
def anyMissing {G : Type} (fs : CacheFS G) : Bool :=
  fs.raw.isNone || fs.sparse.isNone || fs.reg.isNone

/-- C1 counterexample: with the raw artifact present but the sparse one
missing, the build does not recompute; it loads the partial subset (the sparse
grid stays unset) and leaves the inconsistent cache on disk. -/
theorem costMap_cache_partial_load_counterexample :
    anyMissing (⟨some 0, none, some 0⟩ : CacheFS Nat) = true ∧
      (costMapStep (⟨some 0, none, some 0⟩ : CacheFS Nat) (1, 2, 3)).recomputed = false ∧
      (costMapStep (⟨some 0, none, some 0⟩ : CacheFS Nat) (1, 2, 3)).loadedRaw = some 0 ∧
      (costMapStep (⟨some 0, none, some 0⟩ : CacheFS Nat) (1, 2, 3)).loadedSparse = none ∧
      (costMapStep (⟨some 0, none, some 0⟩ : CacheFS Nat) (1, 2, 3)).after =
        ⟨some 0, none, some 0⟩ := by
  refine ⟨rfl, rfl, rfl, rfl, rfl⟩

/-- C1 amended: the recompute-and-overwrite path is gated on the raw artifact
alone. All three grids are recomputed and all three artifacts overwritten iff
the raw artifact is missing; whenever the raw artifact exists, the step loads
whatever subset of the three artifacts is present (possibly partial) and
changes nothing on disk. -/
theorem costMap_cache_raw_gated {G : Type} (fs : CacheFS G) (computed : G × G × G) :
    ((costMapStep fs computed).recomputed = true ↔ fs.raw = none) ∧
      (fs.raw = none →
        (costMapStep fs computed).after =
          ⟨some computed.1, some computed.2.1, some computed.2.2⟩) ∧
      (∀ g, fs.raw = some g →
        (costMapStep fs computed).after = fs ∧
          (costMapStep fs computed).loadedRaw = some g ∧
          (costMapStep fs computed).loadedSparse = fs.sparse ∧
          (costMapStep fs computed).loadedReg = fs.reg) := by
  rcases fs with ⟨raw, sparse, reg⟩
  cases raw with
  | none => simp [costMapStep]
  | some g => simp [costMapStep]

/-- C1 amended witness: raw present, sparse and regularized missing. -/
theorem costMap_cache_raw_gated_witness :
    ((costMapStep (⟨some 5, none, none⟩ : CacheFS Nat) (7, 8, 9)).after =
        ⟨some 5, none, none⟩ ∧
      (costMapStep (⟨some 5, none, none⟩ : CacheFS Nat) (7, 8, 9)).loadedRaw = some 5 ∧
      (costMapStep (⟨some 5, none, none⟩ : CacheFS Nat) (7, 8, 9)).loadedSparse = none ∧
      (costMapStep (⟨some 5, none, none⟩ : CacheFS Nat) (7, 8, 9)).loadedReg = none) :=
  (costMap_cache_raw_gated (⟨some 5, none, none⟩ : CacheFS Nat) (7, 8, 9)).2.2 5 rfl

/-! ## Analyse.cxx lines 38-106: File-mode startup and the generator check -/

/-- Observable startup events of `main`. -/
inductive Event
  | fileWrite (path : List Char)
  | sampleDrawn (idx : Nat)
  | exitCode (code : Int)
  | proceed
deriving DecidableEq

/-- `Analyse.cxx` lines 82-86: the File-backed generator; `good` models
`generator->good()`. In the committed source the `HepMCGenerator` construction
is commented out, so the pointer stays null (the absent case). -/
structure Generator where
  good : Bool
deriving DecidableEq

/-- `Analyse.cxx` line 101-103 path written for example signal `i`. -/
def examplePdfPath (i : Nat) : List Char :=
  ("./output/Run.File.N4/exampleSignal." ++ toString (i + 1) ++ ".Run.File.N4.pdf").data

/-- `Analyse.cxx` lines 79-106 in File mode, as an event trace:
line 79 `wavenet.save(outdir + "tmp.snap")`; lines 82-86 construct the
File-backed generator (null in the committed source) and `return 1` if it is
absent or not good; lines 98-104 draw ten example signals, saving a PDF for
each; line 105 closes the generator and the program proceeds. -/
def mainFileModeTrace (gen : Option Generator) : List Event :=
  Event.fileWrite "./output/Run.File.N4/tmp.snap".data ::
    (match gen with
     | none => [Event.exitCode 1]
     | some g =>
       if g.good = false then [Event.exitCode 1]
       else
         ((List.range 10).flatMap
           (fun i => [Event.sampleDrawn i, Event.fileWrite (examplePdfPath i)])) ++
           [Event.proceed])

def isExitEvent : Event → Bool
  | Event.exitCode _ => true
  | _ => false

def isWriteEvent : Event → Bool
  | Event.fileWrite _ => true
  | _ => false

def isDrawEvent : Event → Bool
  | Event.sampleDrawn _ => true
  | _ => false

/-- C2 as stated: the trace terminates with no file write and no sample draw
before the exit. -/
def failsBeforeAnyOutput (tr : List Event) : Prop :=
  (∃ e ∈ tr, isExitEvent e = true) ∧
    ∀ e ∈ tr.takeWhile (fun e => !isExitEvent e),
      isWriteEvent e = false ∧ isDrawEvent e = false

/-- C2 counterexample: with the File-backed generator absent, the program does
exit, but only after `wavenet.save(outdir + "tmp.snap")` (line 79) has already
written a file to disk; so it does not fail before writing any output file. -/
theorem file_generator_output_counterexample :
    ¬ failsBeforeAnyOutput (mainFileModeTrace none) := by
  intro h
  have := h.2 (Event.fileWrite "./output/Run.File.N4/tmp.snap".data) (by decide)
  simp [isWriteEvent] at this

/-- C2 amended: when the File-backed generator is absent or fails its readiness
check, the program exits with code 1 before drawing any example signal and
before writing any analysis output; the one file written before the exit is the
bootstrap snapshot `tmp.snap`, saved at line 79 before the generator is
constructed. -/
theorem file_generator_fails_before_sampling (gen : Option Generator)
    (h : gen = none ∨ ∃ g, gen = some g ∧ g.good = false) :
    mainFileModeTrace gen =
        [Event.fileWrite "./output/Run.File.N4/tmp.snap".data, Event.exitCode 1] ∧
      ∀ e ∈ mainFileModeTrace gen, isDrawEvent e = false := by
  have htr : mainFileModeTrace gen =
      [Event.fileWrite "./output/Run.File.N4/tmp.snap".data, Event.exitCode 1] := by
    rcases h with h | ⟨g, hg, hbad⟩
    · subst h; rfl
    · subst hg
      simp [mainFileModeTrace, hbad]
  refine ⟨htr, ?_⟩
  rw [htr]
  intro e he
  simp only [List.mem_cons, List.not_mem_nil, or_false] at he
  rcases he with rfl | rfl <;> rfl

/-- C2 amended witness: the committed source's configuration (null generator). -/
theorem file_generator_fails_before_sampling_witness :
    mainFileModeTrace none =
        [Event.fileWrite "./output/Run.File.N4/tmp.snap".data, Event.exitCode 1] ∧
      ∀ e ∈ mainFileModeTrace none, isDrawEvent e = false :=
  file_generator_fails_before_sampling none (Or.inl rfl)

/-! ## Analyse.cxx lines 109-156 and 319-320: best-snapshot selection -/

/-- `Analyse.cxx` lines 135-138 iterated over the scan loop: for each scanned
snapshot, in order, compare its second-to-last cost-log entry against the
running minimum and record `bestBasis = snap.number() - 1` on strict
improvement. `k` is the 0-based index of the next snapshot; `st` is the current
`(bestBasis, minCost)` pair. -/
def scanBestAux : Nat → Nat × ℚ → List ℚ → Nat × ℚ
  | _, st, [] => st
  | k, st, c :: cs => scanBestAux (k + 1) (if c < st.2 then (k, c) else st) cs

/-- `Analyse.cxx` lines 109-156: the `(bestBasis, minCost)` pair after the scan
loop, `costs` listing each scanned snapshot's second-to-last cost-log entry in
snapshot order; `minCost` is initialised to `99999.` at line 109 and
`bestBasis` to `0` at line 111. -/
def scanBest (costs : List ℚ) : Nat × ℚ := scanBestAux 0 (0, 99999) costs

def bestBasis (costs : List ℚ) : Nat := (scanBest costs).1

/-- `Analyse.cxx` line 319: `snap.setNumber(bestBasis + 1)` selects the 1-based
snapshot number that is reloaded before the orthonormality audit. -/
def reloadedSnapNumber (costs : List ℚ) : Nat := bestBasis costs + 1

theorem scanBestAux_spec (cs : List ℚ) : ∀ (k : Nat) (st : Nat × ℚ),
    (scanBestAux k st cs = st ∧ ∀ c ∈ cs, st.2 ≤ c) ∨
    (∃ i, i < cs.length ∧
      (scanBestAux k st cs).1 = k + i ∧
      cs[i]? = some (scanBestAux k st cs).2 ∧
      (scanBestAux k st cs).2 < st.2 ∧
      (∀ c ∈ cs, (scanBestAux k st cs).2 ≤ c) ∧
      (∀ j, j < i → ∀ x, cs[j]? = some x → (scanBestAux k st cs).2 < x)) := by
  induction cs with
  | nil =>
    intro k st
    left
    exact ⟨rfl, by simp⟩
  | cons c cs ih =>
    intro k st
    by_cases hc : c < st.2
    · have heq : scanBestAux k st (c :: cs) = scanBestAux (k + 1) (k, c) cs := by
        simp [scanBestAux, hc]
      rcases ih (k + 1) (k, c) with ⟨h1, h2⟩ | ⟨i, hi, h1, h2, h3, h4, h5⟩
      · right
        refine ⟨0, by simp, ?_, ?_, ?_, ?_, ?_⟩
        · rw [heq, h1]
          simp
        · rw [heq, h1]
          simp
        · rw [heq, h1]; exact hc
        · intro x hx
          rw [heq, h1]
          rcases List.mem_cons.mp hx with rfl | hx
          · exact le_refl x
          · exact h2 x hx
        · intro j hj x hx
          omega
      · right
        refine ⟨i + 1, by simp only [List.length_cons]; omega, ?_, ?_, ?_, ?_, ?_⟩
        · rw [heq, h1]; omega
        · rw [heq]; simpa using h2
        · rw [heq]; exact lt_trans h3 hc
        · intro x hx
          rw [heq]
          rcases List.mem_cons.mp hx with rfl | hx
          · exact le_of_lt h3
          · exact h4 x hx
        · intro j hj x hx
          rw [heq]
          match j with
          | 0 =>
            simp only [List.getElem?_cons_zero, Option.some.injEq] at hx
            subst hx
            exact h3
          | j' + 1 =>
            rw [List.getElem?_cons_succ] at hx
            exact h5 j' (by omega) x hx
    · have heq : scanBestAux k st (c :: cs) = scanBestAux (k + 1) st cs := by
        simp [scanBestAux, hc]
      rcases ih (k + 1) st with ⟨h1, h2⟩ | ⟨i, hi, h1, h2, h3, h4, h5⟩
      · left
        refine ⟨by rw [heq, h1], ?_⟩
        intro x hx
        rcases List.mem_cons.mp hx with rfl | hx
        · exact not_lt.mp hc
        · exact h2 x hx
      · right
        refine ⟨i + 1, by simp only [List.length_cons]; omega, ?_, ?_, ?_, ?_, ?_⟩
        · rw [heq, h1]; omega
        · rw [heq]; simpa using h2
        · rw [heq]; exact h3
        · intro x hx
          rw [heq]
          rcases List.mem_cons.mp hx with rfl | hx
          · exact le_of_lt (lt_of_lt_of_le h3 (not_lt.mp hc))
          · exact h4 x hx
        · intro j hj x hx
          rw [heq]
          match j with
          | 0 =>
            simp only [List.getElem?_cons_zero, Option.some.injEq] at hx
            subst hx
            exact lt_of_lt_of_le h3 (not_lt.mp hc)
          | j' + 1 =>
            rw [List.getElem?_cons_succ] at hx
            exact h5 j' (by omega) x hx

/-- C3 counterexample: with second-to-last entries `[100000, 99999]` neither
entry beats the `99999.` initialisation of `minCost`, so `bestBasis` stays `0`
and snapshot 1 is reloaded even though snapshot 2's entry `99999 < 100000` is
the minimum among the scanned snapshots. -/
theorem scan_min_counterexample :
    bestBasis [(100000 : ℚ), 99999] = 0 ∧
      reloadedSnapNumber [(100000 : ℚ), 99999] = 1 ∧
      ([(100000 : ℚ), 99999])[1]? = some (99999 : ℚ) ∧
      (99999 : ℚ) < 100000 := by
  refine ⟨?_, ?_, rfl, by norm_num⟩
  · norm_num [bestBasis, scanBest, scanBestAux]
  · norm_num [reloadedSnapNumber, bestBasis, scanBest, scanBestAux]

/-- C3 amended: provided at least one scanned snapshot's second-to-last
cost-log entry is below the `99999.` initialisation, the snapshot reloaded at
line 319 achieves the minimal second-to-last entry among all scanned snapshots
(the earliest such snapshot in case of ties, since the comparison is strict);
without such an entry the code defaults to reloading snapshot 1. -/
theorem scan_reloads_min_cost_snapshot (costs : List ℚ)
    (h : ∃ c ∈ costs, c < 99999) :
    ∃ b, reloadedSnapNumber costs = b + 1 ∧ bestBasis costs = b ∧
      b < costs.length ∧
      costs[b]? = some (scanBest costs).2 ∧
      (∀ c ∈ costs, (scanBest costs).2 ≤ c) ∧
      (∀ j, j < b → ∀ x, costs[j]? = some x → (scanBest costs).2 < x) := by
  obtain ⟨c0, hc0, hlt⟩ := h
  rcases scanBestAux_spec costs 0 (0, 99999) with ⟨_, h2⟩ | ⟨i, hi, h1, h2, _, h4, h5⟩
  · exact absurd (h2 c0 hc0) (not_le.mpr hlt)
  · refine ⟨i, ?_, ?_, hi, h2, h4, h5⟩
    · unfold reloadedSnapNumber bestBasis scanBest
      omega
    · unfold bestBasis scanBest
      omega

/-- C3 amended witness: entries `[3, 1, 2]`; the minimum `1` sits at snapshot 2. -/
theorem scan_reloads_min_cost_snapshot_witness :
    (∃ c ∈ [(3 : ℚ), 1, 2], c < 99999) ∧
      (∃ b, reloadedSnapNumber [(3 : ℚ), 1, 2] = b + 1 ∧ bestBasis [(3 : ℚ), 1, 2] = b ∧
        b < ([(3 : ℚ), 1, 2]).length ∧
        ([(3 : ℚ), 1, 2])[b]? = some (scanBest [(3 : ℚ), 1, 2]).2 ∧
        (∀ c ∈ [(3 : ℚ), 1, 2], (scanBest [(3 : ℚ), 1, 2]).2 ≤ c) ∧
        (∀ j, j < b → ∀ x, ([(3 : ℚ), 1, 2])[j]? = some x →
          (scanBest [(3 : ℚ), 1, 2]).2 < x)) :=
  ⟨⟨3, List.mem_cons_self 3 [1, 2], by norm_num⟩,
   scan_reloads_min_cost_snapshot [(3 : ℚ), 1, 2]
     ⟨3, List.mem_cons_self 3 [1, 2], by norm_num⟩⟩

/-! ## Analyse.cxx lines 73 and 114-156: the snapshot scan walk -/

/-- Modelled from the spec: the Snapshot enumerator (`Wavenet/Snapshot.h` is not
part of the visible source). Per spec section 3, a `SnapshotHandle` is
constructed from a pattern at number 1, `snap++` increments the 1-based index,
and `exists()` consults the filesystem, here abstracted as the predicate
`ex : Nat → Bool` giving which 1-based snapshot indices are present on disk.
The scan loop itself is `Analyse.cxx` line 114:
`while (snap.exists() && snap.number() <= M) { ... load ... snap++; }`.
The fuel argument bounds the iteration count; each iteration consumes one unit
and increments `k`, and the loop guard `k ≤ M` fails after at most `M` loads
starting from `k = 1`, so `fuel = M + 1` suffices. -/
def scanVisitedAux (ex : Nat → Bool) (M : Nat) : Nat → Nat → List Nat
  | 0, _ => []
  | fuel + 1, k =>
    if ex k = true ∧ k ≤ M then k :: scanVisitedAux ex M fuel (k + 1) else []

/-- The 1-based snapshot numbers loaded by the scan loop, in load order. -/
def scanVisited (ex : Nat → Bool) (M : Nat) : List Nat :=
  scanVisitedAux ex M (M + 1) 1

theorem scanVisitedAux_spec (ex : Nat → Bool) (M : Nat) :
    ∀ fuel k, M + 2 ≤ k + fuel → k ≤ M + 1 →
      ∃ n, k + n ≤ M + 1 ∧
        scanVisitedAux ex M fuel k = List.range' k n ∧
        (∀ j, k ≤ j → j < k + n → ex j = true) ∧
        (k + n ≤ M → ex (k + n) = false) := by
  intro fuel
  induction fuel with
  | zero => intro k hf hk; omega
  | succ fuel ih =>
    intro k hf hk
    by_cases hg : ex k = true ∧ k ≤ M
    · obtain ⟨n', hn1, hn2, hn3, hn4⟩ := ih (k + 1) (by omega) (by omega)
      refine ⟨n' + 1, by omega, ?_, ?_, ?_⟩
      · rw [scanVisitedAux, if_pos hg, hn2, List.range'_succ]
      · intro j hj1 hj2
        rcases Nat.eq_or_lt_of_le hj1 with rfl | hj1
        · exact hg.1
        · exact hn3 j hj1 (by omega)
      · intro hle
        have : (k + 1) + n' = k + (n' + 1) := by omega
        rw [← this]
        exact hn4 (by omega)
    · refine ⟨0, by omega, ?_, ?_, ?_⟩
      · rw [scanVisitedAux, if_neg hg]
        simp
      · intro j hj1 hj2; omega
      · intro hle
        have hx : ex k = false := by
          cases hb : ex k
          · rfl
          · exact absurd ⟨hb, by omega⟩ hg
        simpa using hx

/-- C5: the scan loop visits snapshot numbers in increasing order starting at 1
(a contiguous range `1..n`); every visited number is at most `M` and exists on
disk, and the walk stops at the cap `M` or at the first missing index, which is
never loaded. -/
theorem scan_visits_contiguous_range (ex : Nat → Bool) (M : Nat) :
    ∃ n, n ≤ M ∧ scanVisited ex M = List.range' 1 n ∧
      (∀ j, 1 ≤ j → j ≤ n → ex j = true) ∧
      (n < M → ex (n + 1) = false) := by
  obtain ⟨n, hn1, hn2, hn3, hn4⟩ :=
    scanVisitedAux_spec ex M (M + 1) 1 (by omega) (by omega)
  refine ⟨n, by omega, hn2, ?_, ?_⟩
  · intro j hj1 hj2
    exact hn3 j hj1 (by omega)
  · intro hlt
    have := hn4 (by omega)
    rwa [Nat.add_comm 1 n] at this

/-- C5 witness: a concrete world with snapshots 1..3 present and cap `M = 5`. -/
theorem scan_visits_contiguous_range_witness :
    ∃ n, n ≤ 5 ∧ scanVisited (fun k => decide (k ≤ 3)) 5 = List.range' 1 n ∧
      (∀ j, 1 ≤ j → j ≤ n → decide (j ≤ 3) = true) ∧
      (n < 5 → decide (n + 1 ≤ 3) = false) :=
  scan_visits_contiguous_range (fun k => decide (k ≤ 3)) 5

/-! ## Analyse.cxx lines 114-156: checked accesses in the scan-loop body -/

/-- `std::vector::size_type` width: indices wrap modulo `2^64`. -/
def SIZE_T_MOD : Nat := 2 ^ 64

/-- The bounds checks performed by the `.at` calls in one iteration of the scan
loop (`Analyse.cxx` lines 116-151), for a snapshot with 1-based number `n`,
cost log `costLog` and filter log `filterLog`, against the size-`M` graph
vectors declared at lines 75-76:
`costGraphs.at(snap.number() - 1)` (lines 130-133),
`costLog.at(costLog.size() - 2)` (lines 135-137, the index computed in
unsigned `size_type` arithmetic), `filterGraphs.at(snap.number() - 1)`
(line 151) and `filterLog.at(i)` for `i < Ncoeffs` (lines 146-148).
`true` means every checked access is in bounds; `false` means some `.at`
throws `std::out_of_range`, aborting the scan. -/
def scanBodyOk (M n : Nat) (costLog : List ℚ) (filterLog : List (ℚ × ℚ)) : Bool :=
  decide (n - 1 < M) &&
  decide ((costLog.length + SIZE_T_MOD - 2) % SIZE_T_MOD < costLog.length) &&
  decide (n - 1 < M) &&
  (List.range filterLog.length).all (fun i => decide (i < filterLog.length))

/-- C8: in a scan-loop iteration with `1 ≤ n ≤ M` (the loop guard), the
bounds-checked accesses all succeed iff the snapshot's cost log has at least
two entries: with fewer than two entries the unsigned index
`costLog.size() - 2` wraps and `costLog.at` is out of range (the scan aborts
with an exception), and with at least two entries every checked access,
including the `snap.number() - 1` accesses into the size-`M` graph vectors, is
in bounds. -/
theorem scan_body_accesses (M n : Nat) (costLog : List ℚ) (filterLog : List (ℚ × ℚ))
    (hn : 1 ≤ n) (hnM : n ≤ M) (hlen : costLog.length < 2 ^ 64) :
    (costLog.length < 2 → scanBodyOk M n costLog filterLog = false) ∧
    (2 ≤ costLog.length → scanBodyOk M n costLog filterLog = true) := by
  constructor
  · intro hshort
    have hidx : ¬ ((costLog.length + SIZE_T_MOD - 2) % SIZE_T_MOD < costLog.length) := by
      unfold SIZE_T_MOD
      omega
    simp [scanBodyOk, hidx]
  · intro hlong
    have hidx : (costLog.length + SIZE_T_MOD - 2) % SIZE_T_MOD < costLog.length := by
      unfold SIZE_T_MOD
      omega
    have hray : n - 1 < M := by omega
    simp [scanBodyOk, hidx, hray]

/-- C8 witness: `M = 5`, `n = 1`; a two-entry cost log passes, a one-entry one
aborts. -/
theorem scan_body_accesses_witness :
    (([(3 : ℚ)]).length < 2 → scanBodyOk 5 1 [(3 : ℚ)] [] = false) ∧
      (2 ≤ ([(3 : ℚ), 4]).length → scanBodyOk 5 1 [(3 : ℚ), 4] [] = true) :=
  ⟨(scan_body_accesses 5 1 [(3 : ℚ)] [] (by decide) (by decide) (by norm_num)).1,
   (scan_body_accesses 5 1 [(3 : ℚ), 4] [] (by decide) (by decide) (by norm_num)).2⟩

/-! ## Analyse.cxx lines 324-336: the orthonormality audit -/

/-- `Utilities.h`, `sq` (named `sqNat` here since Mathlib already has `sq`). -/
def sqNat (x : Nat) : Nat := x * x

/-- `Analyse.cxx` line 334: the value filled into the `norms` histogram,
`norm < -0.5 ? -0.499 : (norm > 1.5 ? 1.499 : norm)`. -/
def clampNorm (x : ℚ) : ℚ :=
  if x < -(1 / 2) then -(499 / 1000) else if x > 3 / 2 then 1499 / 1000 else x

/-- `Analyse.cxx` lines 329-336: the audit loop. `bf` abstracts
`wavenet.basisFunction` (a pure function of its four arguments for the fixed
loaded state) and `overlap f1 f2` abstracts `trace(f1 * f2.t())`. For every
`i < sq(sizex)` and `j < sq(sizey)` the basis function is synthesised twice at
`(i % sizex, j / sizey)` and the clamped overlap is filled. -/
def auditFills {A : Type} (sizex sizey : Nat) (bf : Nat → Nat → Nat → Nat → A)
    (overlap : A → A → ℚ) : List ℚ :=
  (List.range (sqNat sizex)).flatMap (fun i =>
    (List.range (sqNat sizey)).map (fun j =>
      let f1 := bf sizex sizey (i % sizex) (j / sizey)
      let f2 := bf sizex sizey (i % sizex) (j / sizey)
      clampNorm (overlap f1 f2)))

theorem length_flatMap_const {α β : Type} (l : List α) (f : α → List β) (n : Nat)
    (h : ∀ a ∈ l, (f a).length = n) : (l.flatMap f).length = l.length * n := by
  induction l with
  | nil => simp
  | cons a l ih =>
    rw [List.flatMap_cons, List.length_append, h a (List.mem_cons_self a l),
      ih (fun b hb => h b (List.mem_cons_of_mem a hb)), List.length_cons]
    ring

/-- C7: the audit histogram receives exactly `sizex² * sizey²` entries, one for
each index pair `(i, j)` with both basis syntheses at the identical coordinates
`(i % sizex, j / sizey)`; every filled value is the clamp of the corresponding
overlap, every fill lies in the display range `[-0.5, 1.5]`, and an overlap
already inside that range is filled unchanged. -/
theorem audit_fills_clamped {A : Type} (sizex sizey : Nat)
    (bf : Nat → Nat → Nat → Nat → A) (overlap : A → A → ℚ) :
    (auditFills sizex sizey bf overlap).length = sqNat sizex * sqNat sizey ∧
      (∀ i j, i < sqNat sizex → j < sqNat sizey →
        clampNorm (overlap (bf sizex sizey (i % sizex) (j / sizey))
            (bf sizex sizey (i % sizex) (j / sizey))) ∈
          auditFills sizex sizey bf overlap) ∧
      (∀ v ∈ auditFills sizex sizey bf overlap,
        ∃ i j, i < sqNat sizex ∧ j < sqNat sizey ∧
          v = clampNorm (overlap (bf sizex sizey (i % sizex) (j / sizey))
            (bf sizex sizey (i % sizex) (j / sizey)))) ∧
      (∀ v ∈ auditFills sizex sizey bf overlap, -(1 / 2) ≤ v ∧ v ≤ 3 / 2) ∧
      (∀ x : ℚ, -(1 / 2) ≤ x → x ≤ 3 / 2 → clampNorm x = x) := by
  have hclamp_id : ∀ x : ℚ, -(1 / 2) ≤ x → x ≤ 3 / 2 → clampNorm x = x := by
    intro x h1 h2
    unfold clampNorm
    rw [if_neg (not_lt.mpr h1), if_neg (not_lt.mpr h2)]
  have hclamp_range : ∀ x : ℚ, -(1 / 2) ≤ clampNorm x ∧ clampNorm x ≤ 3 / 2 := by
    intro x
    unfold clampNorm
    by_cases h1 : x < -(1 / 2)
    · rw [if_pos h1]; norm_num
    · rw [if_neg h1]
      by_cases h2 : x > 3 / 2
      · rw [if_pos h2]; norm_num
      · rw [if_neg h2]
        exact ⟨not_lt.mp h1, not_lt.mp h2⟩
  refine ⟨?_, ?_, ?_, ?_, hclamp_id⟩
  · unfold auditFills
    rw [length_flatMap_const _ _ (sqNat sizey) (fun a _ => by simp)]
    simp
  · intro i j hi hj
    unfold auditFills
    rw [List.mem_flatMap]
    exact ⟨i, List.mem_range.mpr hi,
      List.mem_map.mpr ⟨j, List.mem_range.mpr hj, rfl⟩⟩
  · intro v hv
    unfold auditFills at hv
    rw [List.mem_flatMap] at hv
    obtain ⟨i, hi, hv⟩ := hv
    rw [List.mem_map] at hv
    obtain ⟨j, hj, hv⟩ := hv
    exact ⟨i, j, List.mem_range.mp hi, List.mem_range.mp hj, hv.symm⟩
  · intro v hv
    unfold auditFills at hv
    rw [List.mem_flatMap] at hv
    obtain ⟨i, _, hv⟩ := hv
    rw [List.mem_map] at hv
    obtain ⟨j, _, hv⟩ := hv
    rw [← hv]
    exact hclamp_range _

/-- C7 witness: a 1×1 shape with an out-of-range overlap (clamped into range)
and the identity of the clamp on an in-range value. -/
theorem audit_fills_clamped_witness :
    clampNorm ((fun _ _ => (2 : ℚ)) () ()) ∈
        auditFills 1 1 (fun _ _ _ _ => ()) (fun _ _ => (2 : ℚ)) ∧
      clampNorm (1 / 3) = 1 / 3 :=
  ⟨(audit_fills_clamped 1 1 (fun _ _ _ _ => ()) (fun _ _ => (2 : ℚ))).2.1 0 0
      (by decide) (by decide),
   (audit_fills_clamped 1 1 (fun _ _ _ _ => ()) (fun _ _ => (2 : ℚ))).2.2.2.2 (1 / 3)
      (by norm_num) (by norm_num)⟩

/-! ## Analyse.cxx lines 343-410: the basis-function movie render loop -/

/-- `unsigned` width: `Ncoeffs - 100` at line 380 is computed modulo `2^32`. -/
def UINT_MOD : Nat := 2 ^ 32

/-- `Analyse.cxx` line 380:
`if (iCoeff > 100 and iCoeff < Ncoeffs - 100 and (iCoeff % 4 > 0)) continue;`
with the subtraction in unsigned arithmetic. -/
def skipFrame (Ncoeffs iCoeff : Nat) : Bool :=
  decide (iCoeff > 100) &&
    decide (iCoeff < (Ncoeffs + UINT_MOD - 100) % UINT_MOD) &&
    decide (iCoeff % 4 > 0)

/-- `Analyse.cxx` lines 376-410: the loop over the filter log. Each retained
state emits one frame named with the post-incremented `iFrame` (line 405).
The result lists the `(iCoeff, frame index)` pairs actually written, in
emission order. -/
def renderLoop (Ncoeffs : Nat) : List (Nat × Nat) :=
  ((List.range Ncoeffs).foldl
    (fun acc iCoeff =>
      if skipFrame Ncoeffs iCoeff then acc
      else (acc.1 ++ [(iCoeff, acc.2)], acc.2 + 1))
    ([], 0)).1

/-- `Analyse.cxx` lines 343-348 and 381-382: the per-frame pixel loop runs over
`dimx × dimy` with `dimx = std::min(sizex, dim)` and
`dimy = std::min(sizey, dim)` — the `dim×dim` neighbourhood clamped to the
signal shape. -/
def pixelGrid (sizex sizey dim : Nat) : List (Nat × Nat) :=
  (List.range (min sizex dim)).flatMap (fun i =>
    (List.range (min sizey dim)).map (fun j => (i, j)))

theorem renderFold_spec (N : Nat) :
    ∀ (l : List Nat) (xs : List (Nat × Nat)) (c : Nat),
      l.foldl
        (fun acc iCoeff =>
          if skipFrame N iCoeff then acc
          else (acc.1 ++ [(iCoeff, acc.2)], acc.2 + 1)) (xs, c) =
      (xs ++ (l.filter (fun k => !skipFrame N k)).zip
          (List.range' c (l.filter (fun k => !skipFrame N k)).length),
        c + (l.filter (fun k => !skipFrame N k)).length) := by
  intro l
  induction l with
  | nil => intro xs c; simp
  | cons k l ih =>
    intro xs c
    by_cases hk : skipFrame N k = true
    · rw [List.foldl_cons]
      simp only [hk, if_pos]
      rw [ih xs c]
      have hfil : (k :: l).filter (fun k => !skipFrame N k) =
          l.filter (fun k => !skipFrame N k) := by
        rw [List.filter_cons]
        simp [hk]
      rw [hfil]
    · have hk' : skipFrame N k = false := by
        cases hb : skipFrame N k
        · rfl
        · exact absurd hb hk
      rw [List.foldl_cons]
      simp only [hk', if_false, Bool.false_eq_true]
      rw [ih (xs ++ [(k, c)]) (c + 1)]
      have hfil : (k :: l).filter (fun k => !skipFrame N k) =
          k :: l.filter (fun k => !skipFrame N k) := by
        rw [List.filter_cons]
        simp [hk']
      rw [hfil]
      have hrange : List.range' c ((k :: l.filter (fun k => !skipFrame N k)).length) =
          c :: List.range' (c + 1) ((l.filter (fun k => !skipFrame N k)).length) := by
        rw [List.length_cons, List.range'_succ]
      rw [hrange]
      rw [List.zip_cons_cons]
      simp only [List.append_assoc, List.singleton_append, List.length_cons]
      exact congrArg (Prod.mk _) (by omega)

theorem skipFrame_char (N k : Nat) (hk : k < N) (hN : N < 2 ^ 32) :
    (!skipFrame N k) = decide (k ≤ 100 ∨ N - 100 ≤ k ∨ k % 4 = 0) := by
  have hiff : skipFrame N k = true ↔ ¬(k ≤ 100 ∨ N - 100 ≤ k ∨ k % 4 = 0) := by
    simp only [skipFrame, UINT_MOD, Bool.and_eq_true, decide_eq_true_eq]
    constructor
    · rintro ⟨⟨h1, h2⟩, h3⟩
      push_neg
      refine ⟨by omega, by omega, by omega⟩
    · intro h
      push_neg at h
      obtain ⟨h1, h2, h3⟩ := h
      exact ⟨⟨by omega, by omega⟩, by omega⟩
  cases hs : skipFrame N k
  · have hp : k ≤ 100 ∨ N - 100 ≤ k ∨ k % 4 = 0 := by
      by_contra hq
      rw [hiff.mpr hq] at hs
      simp at hs
    simp only [Bool.not_false]
    exact (decide_eq_true hp).symm
  · have hq := hiff.mp hs
    simp only [Bool.not_true]
    exact (decide_eq_false hq).symm

/-- C4: over a filter log of length `Ncoeffs`, the retained states are exactly
those with index at most 100, within the last 100, or divisible by 4, processed
in filter-log order; the frame indices written to the sink are the dense
sequence `0..K-1` over the `K` retained states; and the per-frame pixel loop
covers exactly the `dim×dim` neighbourhood clamped to the signal shape. -/
theorem render_frames_dense (Ncoeffs : Nat) (hN : Ncoeffs < 2 ^ 32) :
    (renderLoop Ncoeffs).map Prod.fst =
        (List.range Ncoeffs).filter
          (fun k => decide (k ≤ 100 ∨ Ncoeffs - 100 ≤ k ∨ k % 4 = 0)) ∧
      (renderLoop Ncoeffs).map Prod.snd = List.range (renderLoop Ncoeffs).length ∧
      (∀ sizex sizey dim p, p ∈ pixelGrid sizex sizey dim ↔
        p.1 < min sizex dim ∧ p.2 < min sizey dim) := by
  have hfilter : (List.range Ncoeffs).filter (fun k => !skipFrame Ncoeffs k) =
      (List.range Ncoeffs).filter
        (fun k => decide (k ≤ 100 ∨ Ncoeffs - 100 ≤ k ∨ k % 4 = 0)) := by
    apply List.filter_congr
    intro k hk
    exact skipFrame_char Ncoeffs k (List.mem_range.mp hk) hN
  have hloop : renderLoop Ncoeffs =
      ((List.range Ncoeffs).filter (fun k => !skipFrame Ncoeffs k)).zip
        (List.range' 0
          ((List.range Ncoeffs).filter (fun k => !skipFrame Ncoeffs k)).length) := by
    unfold renderLoop
    rw [renderFold_spec Ncoeffs (List.range Ncoeffs) [] 0]
    simp
  refine ⟨?_, ?_, ?_⟩
  · rw [hloop, List.map_fst_zip, hfilter]
    rw [List.length_range']
  · have hlen2 :
        (List.range' 0
            ((List.range Ncoeffs).filter (fun k => !skipFrame Ncoeffs k)).length).length ≤
          ((List.range Ncoeffs).filter (fun k => !skipFrame Ncoeffs k)).length := by
      simp
    rw [hloop, List.map_snd_zip _ _ hlen2, List.length_zip, List.length_range', min_self,
      ← List.range_eq_range']
  · intro sizex sizey dim p
    unfold pixelGrid
    rw [List.mem_flatMap]
    constructor
    · rintro ⟨i, hi, hp⟩
      rw [List.mem_map] at hp
      obtain ⟨j, hj, rfl⟩ := hp
      exact ⟨List.mem_range.mp hi, List.mem_range.mp hj⟩
    · rintro ⟨h1, h2⟩
      exact ⟨p.1, List.mem_range.mpr h1,
        List.mem_map.mpr ⟨p.2, List.mem_range.mpr h2, rfl⟩⟩

/-- C4 witness: a short five-state filter log (all states retained). -/
theorem render_frames_dense_witness :
    5 < 2 ^ 32 ∧
      ((renderLoop 5).map Prod.fst =
          (List.range 5).filter (fun k => decide (k ≤ 100 ∨ 5 - 100 ≤ k ∨ k % 4 = 0)) ∧
        (renderLoop 5).map Prod.snd = List.range (renderLoop 5).length ∧
        (∀ sizex sizey dim p, p ∈ pixelGrid sizex sizey dim ↔
          p.1 < min sizex dim ∧ p.2 < min sizey dim)) :=
  ⟨by norm_num, render_frames_dense 5 (by norm_num)⟩
